import Mathlib

/-!
Shallow embedding of the gobar markup parser (parser.go): the tokenizer
`Tokenize`, the scanner state machine `Scan`, and the piece data model.
Input lines are modelled as lists of characters (the sources only ever
feed ASCII byte data to the parser).  Go machine integers are modelled
as `Int`/`Nat` with explicit reduction modulo 2^64 (resp. 2^32, 2^8)
at the points where the Go code converts between integer types.
-/

namespace Gobar

/-- Alignment of a text piece, from parser.go (`type Align uint8`). -/
inductive Align where
  | LEFT
  | RIGHT
deriving DecidableEq, Repr

/-- X-compatible color, from xgraphics.BGRA as filled in by `NewBGRA`.
Each field is a uint8 value, kept as a `Nat` (< 256 by construction). -/
structure BGRA where
  b : Nat
  g : Nat
  r : Nat
  a : Nat
deriving DecidableEq, Repr

/-- The observable fields of a `TextPiece` (parser.go).  The `Origin`
back-pointer is modelled separately as the scanner's origin chain,
because it is only ever read for the piece that is current. -/
structure PieceCore where
  text : List Char
  font : Nat
  align : Align
  foreground : Option BGRA
  background : Option BGRA
  screens : List Nat
  notScreens : List Nat
deriving DecidableEq, Repr

/-- The zero value of `TextPiece` (all fields at their Go defaults). -/
def defaultPiece : PieceCore :=
  { text := [], font := 0, align := Align.LEFT, foreground := none,
    background := none, screens := [], notScreens := [] }

instance : Inhabited PieceCore := ⟨defaultPiece⟩

/-- The attribute set of a piece: every field except the accumulated text. -/
def attrsOf (p : PieceCore) :
    Nat × Align × Option BGRA × Option BGRA × List Nat × List Nat :=
  (p.font, p.align, p.foreground, p.background, p.screens, p.notScreens)

/-! ### Machine integers -/

/-- 2^64, the modulus of Go's 64-bit `uint`. -/
def UINT_MOD : Int := 18446744073709551616

/-- Go's `uint(i)` conversion from a (64-bit) `int`: two's-complement
wraparound, i.e. reduction modulo 2^64. -/
def intToUint (i : Int) : Nat := (i % UINT_MOD).toNat

/-- Go's `uint8(n)` conversion from an unsigned value: truncation mod 2^8. -/
def toUint8 (n : Nat) : Nat := n % 256

/-- `NewBGRA` (parser.go): decompose a 0xAARRGGBB color value into its
channel bytes. -/
def NewBGRA (color : Nat) : BGRA :=
  { a := toUint8 (color / 16777216)
  , r := toUint8 (color / 65536)
  , g := toUint8 (color / 256)
  , b := toUint8 color }

/-! ### Decimal and base-0 integer parsing (Go strconv, as used here)

`strconv.Atoi` and `strconv.ParseUint(_, 0, 32)` are the only strconv
entry points the scanner uses.  Both are modelled as total functions
returning `(value, ok)`: on failure Go returns an error together with a
well-defined value (0 on a syntax error, the clamped extremum on a range
error), and the scanner keeps using that value, so the pair captures
exactly what the caller can observe. -/

/-- Decimal digit test, as in the tokenizer's explicit range checks. -/
def isDigit (c : Char) : Bool := '0' ≤ c ∧ c ≤ '9'

/-- Digit value of a character for strconv's digit loop:
decimal digits, then lowercase and uppercase letters (values 10..35). -/
def digitVal (c : Char) : Option Nat :=
  if '0' ≤ c ∧ c ≤ '9' then some (c.toNat - '0'.toNat)
  else if 'a' ≤ c ∧ c ≤ 'z' then some (c.toNat - 'a'.toNat + 10)
  else if 'A' ≤ c ∧ c ≤ 'Z' then some (c.toNat - 'A'.toNat + 10)
  else none

/-- Value of a decimal digit string read left to right; `none` as soon
as a non-digit is hit (base-10 parsing in Go rejects every non-digit). -/
def decValue : List Char → Nat → Option Nat
  | [], acc => some acc
  | c :: rest, acc =>
    if isDigit c then decValue rest (acc * 10 + (c.toNat - '0'.toNat))
    else none

/-- Go `strconv.Atoi` on a 64-bit platform: optional sign, then decimal
digits.  Returns `(value, ok)`: on a syntax error `(0, false)`, on a
range error the clamped extremum with `false`, mirroring what
`Atoi`/`ParseInt(s, 10, 64)` hand back alongside the error. -/
def atoi (s : List Char) : Int × Bool :=
  match s with
  | [] => (0, false)
  | c :: rest =>
    let neg : Bool := c = '-'
    let digits : List Char := if c = '-' ∨ c = '+' then rest else s
    match decValue digits 0 with
    | none => (0, false)
    | some n =>
      if digits = [] then (0, false)
      else
        -- ParseUint(s, 10, 64) clamps at 2^64-1 on overflow, then
        -- ParseInt applies the signed 64-bit cutoff 2^63.
        let un : Nat := min n (18446744073709551615)
        if neg = false ∧ 9223372036854775808 ≤ un then
          (9223372036854775807, false)
        else if neg = true ∧ 9223372036854775808 < un then
          (-9223372036854775808, false)
        else
          ((if neg then -(un : Int) else (un : Int)), n < 18446744073709551616)

/-- Digit loop of `strconv.ParseUint` with `bitSize = 32`: processes one
character at a time, failing with `(0, false)` on an invalid digit and
stopping with the clamped `(2^32-1, false)` as soon as the accumulator
would overflow (Go checks digit validity before the overflow cutoff). -/
def parseUintLoop (base : Nat) : List Char → Nat → Nat × Bool
  | [], n => (n, true)
  | c :: cs, n =>
    match digitVal c with
    | none => (0, false)
    | some d =>
      if base ≤ d then (0, false)
      else if 4294967295 / base + 1 ≤ n then (4294967295, false)
      else if 4294967295 < n * base + d then (4294967295, false)
      else parseUintLoop base cs (n * base + d)

/-- Go `strconv.ParseUint(s, 0, 32)`: base inferred from the prefix
(`0b`/`0o`/`0x` when at least one character follows, a bare leading `0`
meaning octal, otherwise decimal), then the 32-bit digit loop.  Signs
are rejected (they are not digits).  Underscore separators never occur
in the tokens this parser feeds in, so they are not modelled. -/
def parseUint032 (s : List Char) : Nat × Bool :=
  match s with
  | [] => (0, false)
  | '0' :: c2 :: c3 :: rest =>
    if c2 = 'b' ∨ c2 = 'B' then parseUintLoop 2 (c3 :: rest) 0
    else if c2 = 'o' ∨ c2 = 'O' then parseUintLoop 8 (c3 :: rest) 0
    else if c2 = 'x' ∨ c2 = 'X' then parseUintLoop 16 (c3 :: rest) 0
    else parseUintLoop 8 (c2 :: c3 :: rest) 0
  | '0' :: rest => parseUintLoop 8 rest 0
  | _ => parseUintLoop 10 s 0

/-! ### Tokenizer -/

/-- Hexadecimal digit, as matched by the `[0-9a-fA-F]` character class
of the parser's compiled color pattern. -/
def isHexDigit (c : Char) : Bool :=
  ('0' ≤ c ∧ c ≤ '9') ∨ ('a' ≤ c ∧ c ≤ 'f') ∨ ('A' ≤ c ∧ c ≤ 'F')

/-- Full match of the color pattern `0[xX][0-9a-fA-F]` repeated 8 times,
anchored at both ends, against a candidate (the tokenizer applies it to
exactly 10 bytes). -/
def rgbMatch (l : List Char) : Bool :=
  match l with
  | '0' :: x :: rest =>
    (x = 'x' ∨ x = 'X') ∧ rest.length = 8 ∧ rest.all isHexDigit
  | _ => false

/-- Length of the numeric run consumed by the tokenizer's numeric case:
an optional leading minus sign, then the contiguous decimal digits. -/
def numRunLen (data : List Char) : Nat :=
  let start : Nat := if data.head? = some '-' then 1 else 0
  start + ((data.drop start).takeWhile isDigit).length

/-- Result of one tokenizer invocation: either the `EndScan` error
(raised on a leading newline; also used for the end-of-input call, where
bufio.Scanner stops without producing a token), or an advance count
together with the token bytes. -/
inductive TokRes where
  | endScan
  | tok (advance : Nat) (token : List Char)
deriving DecidableEq, Repr

/-- `Tokenize` (parser.go): the split function handed to bufio.Scanner,
reproduced case for case in source order.  The empty-input case stands
for the final at-EOF invocation, on which the Go function returns no
token and scanning stops. -/
def Tokenize (data : List Char) : TokRes :=
  match data with
  | [] => TokRes.endScan
  | c :: _ =>
    if c = '\n' then TokRes.endScan
    else if data.length < 2 then TokRes.tok 1 (data.take 1)
    else if data.take 2 = ['\x7b', 'F'] then TokRes.tok 2 (data.take 2)
    else if data.take 2 = ['\x7b', 'S'] then TokRes.tok 2 (data.take 2)
    else if data.length < 3 then TokRes.tok 1 (data.take 1)
    else if data.take 3 = ['\x7b', 'C', 'F'] then TokRes.tok 3 (data.take 3)
    else if data.take 3 = ['\x7b', 'C', 'B'] then TokRes.tok 3 (data.take 3)
    else if data.take 3 = ['\x7b', 'A', 'R'] then TokRes.tok 3 (data.take 3)
    else if 10 ≤ data.length ∧ rgbMatch (data.take 10) = true then
      TokRes.tok 10 (data.take 10)
    else if isDigit c = true ∨ c = '-' then
      TokRes.tok (numRunLen data) (data.take (numRunLen data))
    else TokRes.tok 1 (data.take 1)

/-- Modelled from the spec, section 4.1: the eight matching-priority
rules for the tokenizer, written from the spec's wording rather than
from the code, for comparison with `Tokenize`.  Rule 7's guard is the
spec's "next byte is a decimal digit, or `-` followed eventually by
digits"; its action is the spec's maximal run (an optional leading `-`,
then the contiguous decimal digits). -/
def TokenizeSpec (data : List Char) : TokRes :=
  match data with
  | [] => TokRes.endScan
  | c :: rest =>
    if c = '\n' then TokRes.endScan
    else if data.length < 2 then TokRes.tok 1 (data.take 1)
    else if data.take 2 = ['\x7b', 'F'] ∨ data.take 2 = ['\x7b', 'S'] then
      TokRes.tok 2 (data.take 2)
    else if data.length < 3 then TokRes.tok 1 (data.take 1)
    else if data.take 3 = ['\x7b', 'C', 'F'] ∨ data.take 3 = ['\x7b', 'C', 'B'] ∨
            data.take 3 = ['\x7b', 'A', 'R'] then
      TokRes.tok 3 (data.take 3)
    else if 10 ≤ data.length ∧ rgbMatch (data.take 10) = true then
      TokRes.tok 10 (data.take 10)
    else if isDigit c = true ∨ (c = '-' ∧ rest.any isDigit = true) then
      TokRes.tok (numRunLen data) (data.take (numRunLen data))
    else TokRes.tok 1 (data.take 1)

/-! ### Scanner state machine -/

/-- The scan-local state of `Scan` (parser.go): the piece list built so
far, the index of the current piece (Go finds it by pointer identity via
`currentIndex`; pointers in the list are pairwise distinct, so the index
is well defined and tracked here directly), the origin chain of the
current piece (`Origin` pointers, which the code only ever reads on the
current piece; each origin's own origin is the tail), and the three
flags `screening`, `escaping`, `bracketing`. -/
structure ScanState where
  pieces : List PieceCore
  curIdx : Nat
  chain : List PieceCore
  screening : Bool
  escaping : Bool
  bracketing : Nat
deriving DecidableEq, Repr

/-- The piece `currentText` points at. -/
def curPiece (s : ScanState) : PieceCore := s.pieces.getD s.curIdx defaultPiece

/-- Mutation through the `currentText` pointer: update the current piece
in place in the output list. -/
def setCur (s : ScanState) (f : PieceCore → PieceCore) : ScanState :=
  { s with pieces := s.pieces.set s.curIdx (f (curPiece s)) }

/-- `currentText.Text += piece` (the body of `logPieceError`, and the
default case's literal append). -/
def appendCurText (s : ScanState) (t : List Char) : ScanState :=
  setCur s fun p => { p with text := p.text ++ t }

/-- `moveCurrent` (parser.go).  With `endFlag = false` the new current
piece copies the current piece (text cleared) and records it as origin;
with `endFlag = true` it copies the piece `currentText.Origin` points at
(text cleared), inheriting that piece's own origin chain.  The new piece
is inserted at the current index when the piece being left is
right-aligned (the append/copy/assign dance in the source is exactly a
positional insert), otherwise appended.  The `endFlag = true, chain = []`
case never arises: the only such call is guarded by
`currentText.Origin != nil`. -/
def moveCurrent (s : ScanState) (endFlag : Bool) : ScanState :=
  let cur := curPiece s
  let base : PieceCore :=
    if endFlag then s.chain.headD cur else cur
  let chain' : List PieceCore :=
    if endFlag then s.chain.tail else cur :: s.chain
  let newCur : PieceCore := { base with text := [] }
  if cur.align = Align.RIGHT then
    { s with pieces := s.pieces.take s.curIdx ++ newCur :: s.pieces.drop s.curIdx,
             chain := chain' }
  else
    { s with pieces := s.pieces ++ [newCur], curIdx := s.pieces.length,
             chain := chain' }

/-- One `scanner.Scan()` step of the driving bufio.Scanner: `none` when
the tokenizer signals `EndScan` (leading newline) or the input is
exhausted (the at-EOF invocation), otherwise the token and the remaining
input.  Once it returns `none` it returns `none` on the same remainder
forever, which models the scanner's sticky error/EOF state. -/
def nextTok (rem : List Char) : Option (List Char × List Char) :=
  match Tokenize rem with
  | TokRes.endScan => none
  | TokRes.tok adv t => some (t, rem.drop adv)

/-- An argument fetch inside a directive case: `scanner.Scan()` followed
by `scanner.Text()`.  The two failure modes of the inner `Scan` differ
observably and are both modelled.  On the `EndScan` error (the next
byte is a newline) `bufio.Scanner.Scan` runs `setErr` and returns
before its `s.token = token` assignment, so `scanner.Text()` still
returns the directive token itself (`stext`).  At end of input the
split function is invoked with `atEOF = true` and returns
`(0, nil, nil)` with a nil error, so the scanner does execute
`s.token = token`, assigning nil, and `scanner.Text()` returns the
empty string.  Neither failure consumes input. -/
def scanArg (stext rem : List Char) : List Char × List Char :=
  match rem with
  | [] => ([], [])
  | _ =>
    match nextTok rem with
    | none => (stext, rem)
    | some (t, rem') => (t, rem')

/-- The switch's default case (also reached by fallthrough from the
unescaped `}` case): while screening, a `,` fetches one more token and
appends its parsed value to the current piece's screens (appending the
literal `,` plus argument text on a parse error first); any other token
is appended to the current text.  Both paths clear `escaping`. -/
def defaultCase (s : ScanState) (stext rem : List Char) : ScanState × List Char :=
  if s.screening = true ∧ stext = [','] then
    let t := (scanArg stext rem).1
    let rem' := (scanArg stext rem).2
    let screen := (atoi t).1
    let s1 := if (atoi t).2 then s else appendCurText s (stext ++ t)
    let s2 := setCur s1 fun p => { p with screens := p.screens ++ [intToUint screen] }
    ({ s2 with escaping := false }, rem')
  else
    ({ appendCurText s stext with escaping := false }, rem)

/-- One iteration of the scan loop: dispatch one token through the
switch of `Scan` (parser.go), in source case order.  Directive cases
fetch their argument token themselves, so the remaining input is
threaded through.  `none` marks the one place the Go code panics:
`text[0]` in the `case "{S"` body when the argument text is empty,
which happens exactly when the input ends right after the `\x7bS`
token (then `scanner.Text()` is the empty string, see `scanArg`). -/
def processToken (s : ScanState) (stext rem : List Char) :
    Option (ScanState × List Char) :=
  if stext = ['\\'] then
    some ({ s with escaping := true }, rem)
  else if s.escaping = false ∧ stext = ['\x7b', 'F'] then
    let t := (scanArg stext rem).1
    let rem' := (scanArg stext rem).2
    let font := (atoi t).1
    let s1 := if (atoi t).2 then s else appendCurText s (stext ++ t)
    some (setCur (moveCurrent s1 false) (fun p => { p with font := intToUint font }), rem')
  else if s.escaping = false ∧ stext = ['\x7b', 'S'] then
    let t := (scanArg stext rem).1
    let rem' := (scanArg stext rem).2
    let screen := (atoi t).1
    let s1 := if (atoi t).2 then s else appendCurText s (stext ++ t)
    let s2 := moveCurrent s1 false
    match t with
    | [] => none
    | a :: _ =>
      let s3 :=
        if a = '-' then
          setCur s2 fun p => { p with notScreens := p.notScreens ++ [intToUint (-screen)] }
        else
          setCur s2 fun p => { p with screens := p.screens ++ [intToUint screen] }
      some ({ s3 with screening := true }, rem')
  else if s.escaping = false ∧ stext = ['\x7b', 'C', 'F'] then
    let t := (scanArg stext rem).1
    let rem' := (scanArg stext rem).2
    let fg := (parseUint032 t).1
    let s1 := if (parseUint032 t).2 then s else appendCurText s (stext ++ t)
    some (setCur (moveCurrent s1 false) (fun p => { p with foreground := some (NewBGRA fg) }), rem')
  else if s.escaping = false ∧ stext = ['\x7b', 'C', 'B'] then
    let t := (scanArg stext rem).1
    let rem' := (scanArg stext rem).2
    let bg := (parseUint032 t).1
    let s1 := if (parseUint032 t).2 then s else appendCurText s (stext ++ t)
    some (setCur (moveCurrent s1 false) (fun p => { p with background := some (NewBGRA bg) }), rem')
  else if s.escaping = false ∧ stext = ['\x7b', 'A', 'R'] then
    some (setCur (moveCurrent s false) (fun p => { p with align := Align.RIGHT }), rem)
  else if s.escaping = false ∧ stext = ['\x7b'] then
    some ({ s with bracketing := s.bracketing + 1 }, rem)
  else if s.escaping = false ∧ stext = ['\x7d'] then
    if 0 < s.bracketing then
      some ({ s with bracketing := s.bracketing - 1 }, rem)
    else
      let s1 := { s with screening := false }
      match s1.chain with
      | _ :: _ => some (moveCurrent s1 true, rem)
      | [] => some (defaultCase s1 stext rem)
  else
    some (defaultCase s stext rem)

/-- A plain flag assignment on the scan state (`screening = b`), used
to name the record updates of `processToken` in the lemmas below. -/
def setScreening (s : ScanState) (b : Bool) : ScanState := { s with screening := b }

/-- A plain flag assignment on the scan state (`escaping = b`). -/
def setEscaping (s : ScanState) (b : Bool) : ScanState := { s with escaping := b }

/-- The `for scanner.Scan()` loop.  Fuel-indexed for structural
recursion; every iteration consumes at least one input character, so
`rem.length + 1` units of fuel always suffice (`scanLoopF_congr`), and
the fuel-exhausted branch is unreachable from `Scan`. -/
def scanLoopF : Nat → ScanState → List Char → Option ScanState
  | 0, s, _ => some s
  | fuel + 1, s, rem =>
    match nextTok rem with
    | none => some s
    | some (t, rem') =>
      match processToken s t rem' with
      | none => none
      | some (s', rem2) => scanLoopF fuel s' rem2

/-- The scan state at loop entry: one empty piece, which is current. -/
def initState : ScanState :=
  { pieces := [defaultPiece], curIdx := 0, chain := [],
    screening := false, escaping := false, bracketing := 0 }

/-- `Scan` (parser.go) over one line of input: run the scanner loop,
then drop the pieces whose text is empty.  `none` marks the `text[0]`
panic site modelled in `processToken`. -/
def Scan (cs : List Char) : Option (List PieceCore) :=
  (scanLoopF (cs.length + 1) initState cs).map fun s =>
    s.pieces.filter fun p => !(p.text = [])

/-! ### Regression checks against the repository's own test vectors

These mirror rows of `TokenizeTests` and `ScanTests` in parser_test.go
and pin the embedding to the behaviour the repository itself asserts. -/

theorem tokenize_matches_tests :
    Tokenize ['t', 'e'] = TokRes.tok 1 ['t'] ∧
    Tokenize ['\x7b', 'F', 't', 'e', 's', 't'] = TokRes.tok 2 ['\x7b', 'F'] ∧
    Tokenize ['\x7b', 'S', 't', 'e', 's', 't'] = TokRes.tok 2 ['\x7b', 'S'] ∧
    Tokenize ['\x7b', 'C', 'F', 't', 'e', 's', 't'] = TokRes.tok 3 ['\x7b', 'C', 'F'] ∧
    Tokenize ['\x7b', 'C', 'B', 't', 'e', 's', 't'] = TokRes.tok 3 ['\x7b', 'C', 'B'] ∧
    Tokenize ['\x7b', 'A', 'R', 't', 'e', 's', 't'] = TokRes.tok 3 ['\x7b', 'A', 'R'] ∧
    Tokenize ['0', '3', '1', '2', '4', '9', '5', 't', 'e', 's', 't'] =
      TokRes.tok 7 ['0', '3', '1', '2', '4', '9', '5'] ∧
    Tokenize ['5', '9', '4', '2', '1', '3', '0'] = TokRes.tok 7 ['5', '9', '4', '2', '1', '3', '0'] ∧
    Tokenize ['\n', 't', 'e', 's', 't'] = TokRes.endScan := by
  decide

theorem scan_matches_tests :
    Scan ['\x7b', 'F', '1', 't', '\x7d'] =
      some [{ text := ['t'], font := 1, align := Align.LEFT, foreground := none,
              background := none, screens := [], notScreens := [] }] ∧
    Scan ['\x7b', 'C', 'F', '0', 'x', 'F', 'F', '0', '0', 'A', 'A', '3', '3', 't', '\x7d'] =
      some [{ text := ['t'], font := 0, align := Align.LEFT,
              foreground := some { b := 51, g := 170, r := 0, a := 255 },
              background := none, screens := [], notScreens := [] }] ∧
    Scan ['\x7b', 'S', '1', ',', '2', 't', '\x7d'] =
      some [{ text := ['t'], font := 0, align := Align.LEFT, foreground := none,
              background := none, screens := [1, 2], notScreens := [] }] ∧
    Scan ['\x7b', 'S', '-', '0', 't', '\x7d'] =
      some [{ text := ['t'], font := 0, align := Align.LEFT, foreground := none,
              background := none, screens := [], notScreens := [0] }] ∧
    Scan ['\\', '\x7b', 'F'] =
      some [{ text := ['\x7b', 'F'], font := 0, align := Align.LEFT, foreground := none,
              background := none, screens := [], notScreens := [] }] ∧
    Scan ['\x7b', 't', '\x7d'] =
      some [{ text := ['t'], font := 0, align := Align.LEFT, foreground := none,
              background := none, screens := [], notScreens := [] }] ∧
    Scan ['\\', '\x7b', 't', '\x7d'] =
      some [{ text := ['\x7b', 't', '\x7d'], font := 0, align := Align.LEFT, foreground := none,
              background := none, screens := [], notScreens := [] }] ∧
    Scan ['\x7d'] =
      some [{ text := ['\x7d'], font := 0, align := Align.LEFT, foreground := none,
              background := none, screens := [], notScreens := [] }] := by
  refine ⟨by decide, by decide, by decide, by decide, by decide, by decide, by decide, by decide⟩

theorem scan_matches_nesting_test :
    Scan ['\x7b', 'A', 'R', '\x7b', 'F', '1', 't', '1', '\x7d', 't', '2', '\x7d'] =
      some [{ text := ['t', '2'], font := 0, align := Align.RIGHT, foreground := none,
              background := none, screens := [], notScreens := [] },
            { text := ['t', '1'], font := 1, align := Align.RIGHT, foreground := none,
              background := none, screens := [], notScreens := [] }] ∧
    Scan ['\x7b', 'S', '1', 't', '1', '\x7d', '\x7b', 'F', '1', '\x7b', 'S', '1',
          't', '2', '\x7d', 't', '3', '\x7d'] =
      some [{ text := ['t', '1'], font := 0, align := Align.LEFT, foreground := none,
              background := none, screens := [1], notScreens := [] },
            { text := ['t', '2'], font := 1, align := Align.LEFT, foreground := none,
              background := none, screens := [1], notScreens := [] },
            { text := ['t', '3'], font := 1, align := Align.LEFT, foreground := none,
              background := none, screens := [], notScreens := [] }] := by
  exact ⟨by decide, by decide⟩

/-- Input ending right after a directive with a fetched argument: at
EOF the inner `scanner.Scan()` leaves an empty `scanner.Text()`, so the
`\x7bF`/`\x7bCF` cases append just the directive prefix to the current
piece (the empty argument parses with fallback value 0 and the scope
still opens, empty, and is dropped by the final filter).  Only the
`\x7bS` case indexes into the empty argument and aborts (see the C1
theorem). -/
theorem scan_eof_argument_fetch :
    Scan ['\x7b', 'F'] =
      some [{ text := ['\x7b', 'F'], font := 0, align := Align.LEFT, foreground := none,
              background := none, screens := [], notScreens := [] }] ∧
    Scan ['\x7b', 'C', 'F'] =
      some [{ text := ['\x7b', 'C', 'F'], font := 0, align := Align.LEFT, foreground := none,
              background := none, screens := [], notScreens := [] }] ∧
    Scan ['\x7b', 'S', '1', ','] =
      some [{ text := [','], font := 0, align := Align.LEFT, foreground := none,
              background := none, screens := [1, 0], notScreens := [] }] := by
  exact ⟨by decide, by decide, by decide⟩

/-! ### Tokenizer lemmas -/

theorem numRunLen_pos (c : Char) (rest : List Char)
    (h : isDigit c = true ∨ c = '-') : 1 ≤ numRunLen (c :: rest) := by
  by_cases hm : c = '-'
  · simp [numRunLen, hm]
  · have hd : isDigit c = true := h.resolve_right hm
    simp [numRunLen, hm, List.takeWhile_cons, hd]

theorem numRunLen_no_digits (c : Char) (rest : List Char) (hc : c = '-')
    (h : rest.any isDigit = false) : numRunLen (c :: rest) = 1 := by
  subst hc
  unfold numRunLen
  have ht : List.takeWhile isDigit rest = [] := by
    cases rest with
    | nil => rfl
    | cons r rs =>
      have : isDigit r = false := by
        have := List.any_eq_false.mp h r (by simp)
        simpa using this
      simp [List.takeWhile_cons, this]
  simp [ht]

/-- Case shape of the tokenizer on nonempty data: either the newline
stop signal, or a token that is a nonempty prefix of the data. -/
theorem tokenize_shape (c : Char) (rest : List Char) :
    (c = '\n' ∧ Tokenize (c :: rest) = TokRes.endScan) ∨
    ∃ k, 1 ≤ k ∧ Tokenize (c :: rest) = TokRes.tok k ((c :: rest).take k) := by
  by_cases h1 : c = '\n'
  · exact Or.inl ⟨h1, by simp only [Tokenize]; rw [if_pos h1]⟩
  refine Or.inr ?_
  simp only [Tokenize]
  rw [if_neg h1]
  by_cases h2 : (c :: rest).length < 2
  · rw [if_pos h2]; exact ⟨1, by omega, rfl⟩
  rw [if_neg h2]
  by_cases h3 : (c :: rest).take 2 = ['\x7b', 'F']
  · rw [if_pos h3]; exact ⟨2, by omega, rfl⟩
  rw [if_neg h3]
  by_cases h4 : (c :: rest).take 2 = ['\x7b', 'S']
  · rw [if_pos h4]; exact ⟨2, by omega, rfl⟩
  rw [if_neg h4]
  by_cases h5 : (c :: rest).length < 3
  · rw [if_pos h5]; exact ⟨1, by omega, rfl⟩
  rw [if_neg h5]
  by_cases h6 : (c :: rest).take 3 = ['\x7b', 'C', 'F']
  · rw [if_pos h6]; exact ⟨3, by omega, rfl⟩
  rw [if_neg h6]
  by_cases h7 : (c :: rest).take 3 = ['\x7b', 'C', 'B']
  · rw [if_pos h7]; exact ⟨3, by omega, rfl⟩
  rw [if_neg h7]
  by_cases h8 : (c :: rest).take 3 = ['\x7b', 'A', 'R']
  · rw [if_pos h8]; exact ⟨3, by omega, rfl⟩
  rw [if_neg h8]
  by_cases h9 : 10 ≤ (c :: rest).length ∧ rgbMatch ((c :: rest).take 10) = true
  · rw [if_pos h9]; exact ⟨10, by omega, rfl⟩
  rw [if_neg h9]
  by_cases h10 : isDigit c = true ∨ c = '-'
  · rw [if_pos h10]; exact ⟨numRunLen (c :: rest), numRunLen_pos c rest h10, rfl⟩
  · rw [if_neg h10]; exact ⟨1, by omega, rfl⟩

theorem tokenize_tok_facts (d : List Char) (k : Nat) (t : List Char)
    (h : Tokenize d = TokRes.tok k t) : t ≠ [] ∧ 1 ≤ k ∧ t = d.take k ∧ d ≠ [] := by
  cases d with
  | nil => simp [Tokenize] at h
  | cons c rest =>
    rcases tokenize_shape c rest with ⟨_, hs⟩ | ⟨k', hk', hs⟩
    · rw [hs] at h; cases h
    · rw [hs] at h
      cases h
      refine ⟨?_, hk', rfl, by simp⟩
      cases k with
      | zero => omega
      | succ m => simp [List.take]

/-- Claim C6: `Tokenize` implements the spec's matching priority, first
rule winning; in particular the two distinguishing examples from the
claim: a full 10-byte color literal is one token, and a failed color
prefix falls through to the maximal numeric run, yielding the one-byte
token `0`. -/
theorem Tokenize_matches_spec_priority :
    (∀ data : List Char, Tokenize data = TokenizeSpec data) ∧
    Tokenize ['0', 'x', 'f', 'f', '1', 'e', 'F', '0', '9', 'a', 't', 'e', 's', 't'] =
      TokRes.tok 10 ['0', 'x', 'f', 'f', '1', 'e', 'F', '0', '9', 'a'] ∧
    Tokenize ['0', 'x', 'f', 'f', '1', 'e', 'F', '0', 't', 'e', 's', 't'] =
      TokRes.tok 1 ['0'] := by
  refine ⟨?_, by decide, by decide⟩
  intro data
  cases data with
  | nil => rfl
  | cons c rest =>
    simp only [Tokenize, TokenizeSpec]
    by_cases h1 : c = '\n'
    · rw [if_pos h1, if_pos h1]
    rw [if_neg h1, if_neg h1]
    by_cases h2 : (c :: rest).length < 2
    · rw [if_pos h2, if_pos h2]
    rw [if_neg h2, if_neg h2]
    by_cases h3 : (c :: rest).take 2 = ['\x7b', 'F']
    · rw [if_pos h3, if_pos (Or.inl h3)]
    by_cases h4 : (c :: rest).take 2 = ['\x7b', 'S']
    · rw [if_neg h3, if_pos h4, if_pos (Or.inr h4)]
    rw [if_neg h3, if_neg h4, if_neg (by tauto : ¬((c :: rest).take 2 = ['\x7b', 'F'] ∨ (c :: rest).take 2 = ['\x7b', 'S']))]
    by_cases h5 : (c :: rest).length < 3
    · rw [if_pos h5, if_pos h5]
    rw [if_neg h5, if_neg h5]
    by_cases h6 : (c :: rest).take 3 = ['\x7b', 'C', 'F']
    · rw [if_pos h6, if_pos (Or.inl h6)]
    by_cases h7 : (c :: rest).take 3 = ['\x7b', 'C', 'B']
    · rw [if_neg h6, if_pos h7, if_pos (Or.inr (Or.inl h7))]
    by_cases h8 : (c :: rest).take 3 = ['\x7b', 'A', 'R']
    · rw [if_neg h6, if_neg h7, if_pos h8, if_pos (Or.inr (Or.inr h8))]
    rw [if_neg h6, if_neg h7, if_neg h8,
        if_neg (by tauto : ¬((c :: rest).take 3 = ['\x7b', 'C', 'F'] ∨ (c :: rest).take 3 = ['\x7b', 'C', 'B'] ∨ (c :: rest).take 3 = ['\x7b', 'A', 'R']))]
    by_cases h9 : 10 ≤ (c :: rest).length ∧ rgbMatch ((c :: rest).take 10) = true
    · rw [if_pos h9, if_pos h9]
    rw [if_neg h9, if_neg h9]
    by_cases h10 : isDigit c = true
    · rw [if_pos (Or.inl h10), if_pos (Or.inl h10)]
    by_cases h11 : c = '-'
    · -- the only point where the two guards differ: a leading minus.
      -- When some digit follows in the rest both sides take the numeric
      -- run; when none does, the code's numeric run is the single byte
      -- '-', which coincides with the spec's rule-8 single-byte token.
      by_cases h12 : rest.any isDigit = true
      · rw [if_pos (Or.inr h11), if_pos (Or.inr ⟨h11, h12⟩)]
      · have hany : rest.any isDigit = false := by simpa using h12
        have hrun := numRunLen_no_digits c rest h11 hany
        rw [if_pos (Or.inr h11), if_neg (by tauto : ¬(isDigit c = true ∨ c = '-' ∧ rest.any isDigit = true)), hrun]
    · rw [if_neg (by tauto : ¬(isDigit c = true ∨ c = '-')),
          if_neg (by tauto : ¬(isDigit c = true ∨ c = '-' ∧ rest.any isDigit = true))]

/-! ### Scanner helper lemmas -/

theorem nextTok_facts (rem t rem' : List Char)
    (h : nextTok rem = some (t, rem')) :
    t ≠ [] ∧ rem'.length < rem.length := by
  unfold nextTok at h
  cases htok : Tokenize rem with
  | endScan => rw [htok] at h; cases h
  | tok adv tk =>
    rw [htok] at h
    cases h
    obtain ⟨hne, hadv, -, hdne⟩ := tokenize_tok_facts rem adv t htok
    refine ⟨hne, ?_⟩
    have : 1 ≤ rem.length := by
      cases rem with
      | nil => exact absurd rfl hdne
      | cons _ _ => simp
    simp only [List.length_drop]
    omega

theorem scanArg_fst_ne_nil (stext rem : List Char) (hrem : rem ≠ [])
    (h : stext ≠ []) : (scanArg stext rem).1 ≠ [] := by
  cases rem with
  | nil => exact absurd rfl hrem
  | cons c cr =>
    unfold scanArg
    cases hn : nextTok (c :: cr) with
    | none => simpa using h
    | some p =>
      obtain ⟨t, rem'⟩ := p
      simpa using (nextTok_facts (c :: cr) t rem' hn).1

theorem scanArg_snd_le (stext rem : List Char) :
    (scanArg stext rem).2.length ≤ rem.length := by
  cases rem with
  | nil => exact Nat.le_refl _
  | cons c cr =>
    unfold scanArg
    cases hn : nextTok (c :: cr) with
    | none => simp
    | some p =>
      obtain ⟨t, rem'⟩ := p
      simpa using Nat.le_of_lt (nextTok_facts (c :: cr) t rem' hn).2

theorem processToken_snd_le_shape (s : ScanState) (stext rem : List Char) :
    match processToken s stext rem with
    | none => True
    | some p => p.2.length ≤ rem.length := by
  have hd : ∀ s₀ : ScanState, (defaultCase s₀ stext rem).2.length ≤ rem.length := by
    intro s₀
    unfold defaultCase
    split_ifs <;> simp [scanArg_snd_le]
  unfold processToken
  by_cases h1 : stext = ['\\']
  · rw [if_pos h1]
  rw [if_neg h1]
  by_cases h2 : s.escaping = false ∧ stext = ['\x7b', 'F']
  · rw [if_pos h2]; exact scanArg_snd_le _ _
  rw [if_neg h2]
  by_cases h3 : s.escaping = false ∧ stext = ['\x7b', 'S']
  · rw [if_pos h3]
    cases ht : (scanArg stext rem).1 with
    | nil => simp [ht]
    | cons a as => simp only [ht]; exact scanArg_snd_le _ _
  rw [if_neg h3]
  by_cases h4 : s.escaping = false ∧ stext = ['\x7b', 'C', 'F']
  · rw [if_pos h4]; exact scanArg_snd_le _ _
  rw [if_neg h4]
  by_cases h5 : s.escaping = false ∧ stext = ['\x7b', 'C', 'B']
  · rw [if_pos h5]; exact scanArg_snd_le _ _
  rw [if_neg h5]
  by_cases h6 : s.escaping = false ∧ stext = ['\x7b', 'A', 'R']
  · rw [if_pos h6]
  rw [if_neg h6]
  by_cases h7 : s.escaping = false ∧ stext = ['\x7b']
  · rw [if_pos h7]
  rw [if_neg h7]
  by_cases h8 : s.escaping = false ∧ stext = ['\x7d']
  · rw [if_pos h8]
    by_cases hb : 0 < s.bracketing
    · rw [if_pos hb]
    · rw [if_neg hb]
      cases hc : s.chain with
      | nil => simp only [hc]; exact hd _
      | cons o os => simp only [hc]; exact Nat.le_refl _
  · rw [if_neg h8]; exact hd _

theorem processToken_snd_le (s : ScanState) (stext rem : List Char)
    (s' : ScanState) (rem' : List Char)
    (h : processToken s stext rem = some (s', rem')) :
    rem'.length ≤ rem.length := by
  have H := processToken_snd_le_shape s stext rem
  rw [h] at H
  exact H

theorem scanLoopF_succ (n : Nat) (s : ScanState) (rem : List Char) :
    scanLoopF (n + 1) s rem =
      match nextTok rem with
      | none => some s
      | some (t, rem') =>
        match processToken s t rem' with
        | none => none
        | some (s', rem2) => scanLoopF n s' rem2 := rfl

/-- Claim C1 (refuted by the code): the scanner does abort on one
malformed input class the claim explicitly covers.  On the line
`\x7bS` — input ending immediately after the directive prefix, with no
trailing newline — the inner argument fetch leaves the bufio scanner's
token nil, `scanner.Text()` is the empty string, and the
`case "\x7bS"` body indexes `text[0]` out of range: a runtime panic,
modelled as `none`.  With a trailing newline the scanner recovers,
because the `EndScan` error path retains the directive token: the same
line plus a newline scans to the single piece with text
`\x7bS\x7bS` (the prefix plus the retained token appended by
`logPieceError`). -/
theorem Scan_aborts_on_bare_screen_directive :
    Scan ['\x7b', 'S'] = none ∧
    Scan ['\x7b', 'S', '\n'] =
      some [{ text := ['\x7b', 'S', '\x7b', 'S'], font := 0, align := Align.LEFT,
              foreground := none, background := none, screens := [], notScreens := [] }] := by
  exact ⟨by decide, by decide⟩

/-- Claim C10: negative integers accepted where a non-negative index is
expected are converted by two's-complement wraparound modulo 2^64, not
rejected: the font of `Scan("\x7bF-1x\x7d")` is 2^64 - 1, and a
comma-chained `-3` inside a `\x7bS` scope lands in `screens` as
2^64 - 3 (not as 3, and not in `notScreens`). -/
theorem Scan_negative_wraparound :
    Scan ['\x7b', 'F', '-', '1', 'x', '\x7d'] =
      some [{ text := ['x'], font := 18446744073709551615, align := Align.LEFT,
              foreground := none, background := none, screens := [], notScreens := [] }] ∧
    Scan ['\x7b', 'S', '1', ',', '-', '3', 'x', '\x7d'] =
      some [{ text := ['x'], font := 0, align := Align.LEFT,
              foreground := none, background := none,
              screens := [1, 18446744073709551613], notScreens := [] }] := by
  exact ⟨by decide, by decide⟩

/-! ### State-manipulation lemmas -/

theorem curPiece_setCur (s : ScanState) (f : PieceCore → PieceCore)
    (h : s.curIdx < s.pieces.length) : curPiece (setCur s f) = f (curPiece s) := by
  unfold curPiece setCur
  simp [List.getD_eq_getElem?_getD, List.getElem?_set_self h, curPiece]

theorem setCur_chain (s : ScanState) (f : PieceCore → PieceCore) :
    (setCur s f).chain = s.chain := rfl

theorem setCur_curIdx (s : ScanState) (f : PieceCore → PieceCore) :
    (setCur s f).curIdx = s.curIdx := rfl

theorem setCur_length (s : ScanState) (f : PieceCore → PieceCore) :
    (setCur s f).pieces.length = s.pieces.length := by
  unfold setCur
  simp

theorem appendCurText_curPiece (s : ScanState) (t : List Char)
    (h : s.curIdx < s.pieces.length) :
    curPiece (appendCurText s t) = { curPiece s with text := (curPiece s).text ++ t } :=
  curPiece_setCur s _ h

theorem moveCurrent_chain (s : ScanState) (e : Bool) :
    (moveCurrent s e).chain = if e then s.chain.tail else curPiece s :: s.chain := by
  unfold moveCurrent
  by_cases h : (curPiece s).align = Align.RIGHT <;> simp [h]

theorem moveCurrent_screening (s : ScanState) (e : Bool) :
    (moveCurrent s e).screening = s.screening := by
  unfold moveCurrent
  by_cases h : (curPiece s).align = Align.RIGHT <;> simp [h]

theorem moveCurrent_curPiece (s : ScanState) (e : Bool)
    (h : s.curIdx ≤ s.pieces.length) :
    curPiece (moveCurrent s e) =
      { (if e then s.chain.headD (curPiece s) else curPiece s) with text := [] } := by
  unfold moveCurrent curPiece
  by_cases ha : ((s.pieces.getD s.curIdx defaultPiece).align = Align.RIGHT) <;>
    simp only [ha, if_pos, if_neg, ite_true, ite_false]
  · have hlen : (s.pieces.take s.curIdx).length = s.curIdx := by
      simp [Nat.min_eq_left h]
    rw [List.getD_append_right _ _ _ _ (by omega)]
    simp [hlen]
  · rw [List.getD_append_right _ _ _ _ (Nat.le_refl _)]
    simp

theorem moveCurrent_idx_lt (s : ScanState) (e : Bool)
    (h : s.curIdx < s.pieces.length) :
    (moveCurrent s e).curIdx < (moveCurrent s e).pieces.length := by
  unfold moveCurrent
  by_cases ha : ((curPiece s).align = Align.RIGHT) <;>
    · simp only [ha, if_pos, if_neg, ite_true, ite_false]
      simp
      try omega

/-! ### Branch-evaluation lemmas for `processToken` -/

theorem processToken_backslash (s : ScanState) (rem : List Char) :
    processToken s ['\\'] rem = some ({ s with escaping := true }, rem) := by
  unfold processToken
  rw [if_pos rfl]

theorem processToken_bsF (s : ScanState) (rem : List Char)
    (hesc : s.escaping = false) :
    processToken s ['\x7b', 'F'] rem =
      some (setCur
              (moveCurrent
                (if (atoi (scanArg ['\x7b', 'F'] rem).1).2 then s
                 else appendCurText s (['\x7b', 'F'] ++ (scanArg ['\x7b', 'F'] rem).1))
                false)
              (fun p => { p with font := intToUint (atoi (scanArg ['\x7b', 'F'] rem).1).1 }),
            (scanArg ['\x7b', 'F'] rem).2) := by
  unfold processToken
  rw [if_neg (by decide), if_pos ⟨hesc, rfl⟩]

theorem processToken_bsS (s : ScanState) (rem : List Char) (a : Char) (as : List Char)
    (hesc : s.escaping = false) (harg : (scanArg ['\x7b', 'S'] rem).1 = a :: as) :
    processToken s ['\x7b', 'S'] rem =
      some (setScreening
              (if a = '-' then
                setCur
                  (moveCurrent
                    (if (atoi (a :: as)).2 then s
                     else appendCurText s (['\x7b', 'S'] ++ (a :: as))) false)
                  (fun p => { p with notScreens := p.notScreens ++ [intToUint (-(atoi (a :: as)).1)] })
              else
                setCur
                  (moveCurrent
                    (if (atoi (a :: as)).2 then s
                     else appendCurText s (['\x7b', 'S'] ++ (a :: as))) false)
                  (fun p => { p with screens := p.screens ++ [intToUint (atoi (a :: as)).1] }))
              true,
            (scanArg ['\x7b', 'S'] rem).2) := by
  unfold processToken
  rw [if_neg (by decide), if_neg (by rintro ⟨-, hh⟩; cases hh), if_pos ⟨hesc, rfl⟩]
  simp only [harg]
  rfl

theorem processToken_bsCF (s : ScanState) (rem : List Char)
    (hesc : s.escaping = false) :
    processToken s ['\x7b', 'C', 'F'] rem =
      some (setCur
              (moveCurrent
                (if (parseUint032 (scanArg ['\x7b', 'C', 'F'] rem).1).2 then s
                 else appendCurText s (['\x7b', 'C', 'F'] ++ (scanArg ['\x7b', 'C', 'F'] rem).1))
                false)
              (fun p => { p with foreground := some (NewBGRA (parseUint032 (scanArg ['\x7b', 'C', 'F'] rem).1).1) }),
            (scanArg ['\x7b', 'C', 'F'] rem).2) := by
  unfold processToken
  rw [if_neg (by decide), if_neg (by rintro ⟨-, hh⟩; cases hh),
      if_neg (by rintro ⟨-, hh⟩; cases hh), if_pos ⟨hesc, rfl⟩]

theorem processToken_bsCB (s : ScanState) (rem : List Char)
    (hesc : s.escaping = false) :
    processToken s ['\x7b', 'C', 'B'] rem =
      some (setCur
              (moveCurrent
                (if (parseUint032 (scanArg ['\x7b', 'C', 'B'] rem).1).2 then s
                 else appendCurText s (['\x7b', 'C', 'B'] ++ (scanArg ['\x7b', 'C', 'B'] rem).1))
                false)
              (fun p => { p with background := some (NewBGRA (parseUint032 (scanArg ['\x7b', 'C', 'B'] rem).1).1) }),
            (scanArg ['\x7b', 'C', 'B'] rem).2) := by
  unfold processToken
  rw [if_neg (by decide), if_neg (by rintro ⟨-, hh⟩; cases hh),
      if_neg (by rintro ⟨-, hh⟩; cases hh), if_neg (by rintro ⟨-, hh⟩; cases hh),
      if_pos ⟨hesc, rfl⟩]

theorem processToken_bsAR (s : ScanState) (rem : List Char)
    (hesc : s.escaping = false) :
    processToken s ['\x7b', 'A', 'R'] rem =
      some (setCur (moveCurrent s false) (fun p => { p with align := Align.RIGHT }), rem) := by
  unfold processToken
  rw [if_neg (by decide), if_neg (by rintro ⟨-, hh⟩; cases hh),
      if_neg (by rintro ⟨-, hh⟩; cases hh), if_neg (by rintro ⟨-, hh⟩; cases hh),
      if_neg (by rintro ⟨-, hh⟩; cases hh), if_pos ⟨hesc, rfl⟩]

theorem processToken_close (s : ScanState) (rem : List Char)
    (hesc : s.escaping = false) (hbr : s.bracketing = 0) :
    processToken s ['\x7d'] rem =
      match s.chain with
      | _ :: _ => some (moveCurrent { s with screening := false } true, rem)
      | [] => some (defaultCase { s with screening := false } ['\x7d'] rem) := by
  unfold processToken
  rw [if_neg (by decide), if_neg (by rintro ⟨-, hh⟩; cases hh),
      if_neg (by rintro ⟨-, hh⟩; cases hh), if_neg (by rintro ⟨-, hh⟩; cases hh),
      if_neg (by rintro ⟨-, hh⟩; cases hh), if_neg (by rintro ⟨-, hh⟩; cases hh),
      if_neg (by rintro ⟨-, hh⟩; cases hh), if_pos ⟨hesc, rfl⟩,
      if_neg (by omega)]

theorem processToken_close_bracketing (s : ScanState) (rem : List Char)
    (hesc : s.escaping = false) (hbr : 0 < s.bracketing) :
    processToken s ['\x7d'] rem =
      some ({ s with bracketing := s.bracketing - 1 }, rem) := by
  unfold processToken
  rw [if_neg (by decide), if_neg (by rintro ⟨-, hh⟩; cases hh),
      if_neg (by rintro ⟨-, hh⟩; cases hh), if_neg (by rintro ⟨-, hh⟩; cases hh),
      if_neg (by rintro ⟨-, hh⟩; cases hh), if_neg (by rintro ⟨-, hh⟩; cases hh),
      if_neg (by rintro ⟨-, hh⟩; cases hh), if_pos ⟨hesc, rfl⟩, if_pos hbr]

theorem processToken_comma_screening (s : ScanState) (rem : List Char)
    (hscr : s.screening = true) :
    processToken s [','] rem =
      some (setEscaping
              (setCur
                (if (atoi (scanArg [','] rem).1).2 then s
                 else appendCurText s ([','] ++ (scanArg [','] rem).1))
                (fun p => { p with screens := p.screens ++ [intToUint (atoi (scanArg [','] rem).1).1] }))
              false,
            (scanArg [','] rem).2) := by
  unfold processToken
  rw [if_neg (by decide), if_neg (by rintro ⟨-, hh⟩; cases hh),
      if_neg (by rintro ⟨-, hh⟩; cases hh), if_neg (by rintro ⟨-, hh⟩; cases hh),
      if_neg (by rintro ⟨-, hh⟩; cases hh), if_neg (by rintro ⟨-, hh⟩; cases hh),
      if_neg (by rintro ⟨-, hh⟩; cases hh), if_neg (by rintro ⟨-, hh⟩; cases hh)]
  unfold defaultCase
  rw [if_pos ⟨hscr, rfl⟩]
  rfl

theorem processToken_escaped (s : ScanState) (tok rem : List Char)
    (hesc : s.escaping = true) (hbs : tok ≠ ['\\'])
    (hcm : ¬(s.screening = true ∧ tok = [','])) :
    processToken s tok rem =
      some (setEscaping (appendCurText s tok) false, rem) := by
  unfold processToken
  rw [if_neg hbs, if_neg (by rintro ⟨hh, -⟩; rw [hesc] at hh; cases hh),
      if_neg (by rintro ⟨hh, -⟩; rw [hesc] at hh; cases hh),
      if_neg (by rintro ⟨hh, -⟩; rw [hesc] at hh; cases hh),
      if_neg (by rintro ⟨hh, -⟩; rw [hesc] at hh; cases hh),
      if_neg (by rintro ⟨hh, -⟩; rw [hesc] at hh; cases hh),
      if_neg (by rintro ⟨hh, -⟩; rw [hesc] at hh; cases hh),
      if_neg (by rintro ⟨hh, -⟩; rw [hesc] at hh; cases hh)]
  unfold defaultCase
  rw [if_neg hcm]
  rfl

theorem processToken_plainTok (s : ScanState) (tok rem : List Char)
    (h1 : tok ≠ ['\\']) (h2 : tok ≠ ['\x7b', 'F']) (h3 : tok ≠ ['\x7b', 'S'])
    (h4 : tok ≠ ['\x7b', 'C', 'F']) (h5 : tok ≠ ['\x7b', 'C', 'B'])
    (h6 : tok ≠ ['\x7b', 'A', 'R']) (h7 : tok ≠ ['\x7b']) (h8 : tok ≠ ['\x7d'])
    (hscr : s.screening = false) :
    processToken s tok rem =
      some (setEscaping (appendCurText s tok) false, rem) := by
  unfold processToken
  rw [if_neg h1, if_neg (by rintro ⟨-, hh⟩; exact h2 hh),
      if_neg (by rintro ⟨-, hh⟩; exact h3 hh),
      if_neg (by rintro ⟨-, hh⟩; exact h4 hh),
      if_neg (by rintro ⟨-, hh⟩; exact h5 hh),
      if_neg (by rintro ⟨-, hh⟩; exact h6 hh),
      if_neg (by rintro ⟨-, hh⟩; exact h7 hh),
      if_neg (by rintro ⟨-, hh⟩; exact h8 hh)]
  unfold defaultCase
  rw [if_neg (by rintro ⟨hh, -⟩; rw [hscr] at hh; cases hh)]
  rfl

/-! ### Combined facts about opening and closing a scope -/

theorem open_scope_facts (Y : ScanState) (f : PieceCore → PieceCore)
    (hidx : Y.curIdx < Y.pieces.length) :
    (setCur (moveCurrent Y false) f).chain = curPiece Y :: Y.chain ∧
    curPiece (setCur (moveCurrent Y false) f) = f { curPiece Y with text := [] } := by
  constructor
  · rw [setCur_chain, moveCurrent_chain]
    simp
  · rw [curPiece_setCur _ _ (moveCurrent_idx_lt Y false hidx),
        moveCurrent_curPiece Y false (Nat.le_of_lt hidx)]
    simp

theorem close_scope_facts (Y : ScanState) (hidx : Y.curIdx < Y.pieces.length) :
    (moveCurrent Y true).chain = Y.chain.tail ∧
    curPiece (moveCurrent Y true) = { Y.chain.headD (curPiece Y) with text := [] } := by
  constructor
  · rw [moveCurrent_chain]; simp
  · rw [moveCurrent_curPiece Y true (Nat.le_of_lt hidx)]
    simp

theorem appendCurText_curIdx (s : ScanState) (t : List Char) :
    (appendCurText s t).curIdx = s.curIdx := rfl

theorem appendCurText_chain (s : ScanState) (t : List Char) :
    (appendCurText s t).chain = s.chain := rfl

theorem appendCurText_length (s : ScanState) (t : List Char) :
    (appendCurText s t).pieces.length = s.pieces.length :=
  setCur_length s _

theorem setScreening_chain (s : ScanState) (b : Bool) :
    (setScreening s b).chain = s.chain := rfl

theorem curPiece_setScreening (s : ScanState) (b : Bool) :
    curPiece (setScreening s b) = curPiece s := rfl

theorem setEscaping_chain (s : ScanState) (b : Bool) :
    (setEscaping s b).chain = s.chain := rfl

theorem curPiece_setEscaping (s : ScanState) (b : Bool) :
    curPiece (setEscaping s b) = curPiece s := rfl

theorem setEscaping_screening (s : ScanState) (b : Bool) :
    (setEscaping s b).screening = s.screening := rfl

/-! ### Counterexample runs for the corrected claims -/

/-- Counterexample to claim C2 (malformed directive argument opens no
scope): on input `\x7bFx\x7dt` the code appends `\x7bFx` to the current
piece as the claim says, but then still opens a new scope, which the
`\x7d` closes — so the output is two pieces, where the claim (no scope,
`\x7d` taken literally) would require the single piece `\x7bFx\x7dt`. -/
theorem malformed_arg_opens_scope_cex :
    Scan ['\x7b', 'F', 'x', '\x7d', 't'] =
      some [{ text := ['\x7b', 'F', 'x'], font := 0, align := Align.LEFT,
              foreground := none, background := none, screens := [], notScreens := [] },
            { text := ['t'], font := 0, align := Align.LEFT,
              foreground := none, background := none, screens := [], notScreens := [] }] ∧
    Scan ['\x7b', 'F', 'x', '\x7d', 't'] ≠
      some [{ text := ['\x7b', 'F', 'x', '\x7d', 't'], font := 0, align := Align.LEFT,
              foreground := none, background := none, screens := [], notScreens := [] }] := by
  exact ⟨by decide, by decide⟩

/-- Counterexample to claim C3 (the token after an escaping backslash is
always appended verbatim): a second backslash only re-arms `escaping`
and is never appended (`\\a` scans to `a`, not to `\a`), and a `,`
while screening is still consumed as a screen-list continuation even
when escaped (`\x7bS1\,2t\x7d` yields screens `[1, 2]` and text `t`,
not text `,2t`). -/
theorem escaped_token_not_always_literal_cex :
    (Scan ['\\', '\\', 'a'] =
      some [{ text := ['a'], font := 0, align := Align.LEFT,
              foreground := none, background := none, screens := [], notScreens := [] }] ∧
     Scan ['\\', '\\', 'a'] ≠
      some [{ text := ['\\', 'a'], font := 0, align := Align.LEFT,
              foreground := none, background := none, screens := [], notScreens := [] }]) ∧
    (Scan ['\x7b', 'S', '1', '\\', ',', '2', 't', '\x7d'] =
      some [{ text := ['t'], font := 0, align := Align.LEFT,
              foreground := none, background := none, screens := [1, 2], notScreens := [] }] ∧
     Scan ['\x7b', 'S', '1', '\\', ',', '2', 't', '\x7d'] ≠
      some [{ text := [',', '2', 't'], font := 0, align := Align.LEFT,
              foreground := none, background := none, screens := [1], notScreens := [] }]) := by
  exact ⟨⟨by decide, by decide⟩, ⟨by decide, by decide⟩⟩

/-- Counterexample to claim C4 (every unescaped `\x7d` resets
screening): a `\x7d` that merely decrements a positive bracket depth
hits `continue` before `screening = false`, so screening survives and a
following `,` is still consumed as a screen-list continuation: input
`\x7bS1\x7b\x7d,2 a\x7d` yields screens `[1, 2]` and text ` a`, where
the claim would require the literal text `,2 a` with screens `[1]`. -/
theorem bracket_brace_keeps_screening_cex :
    Scan ['\x7b', 'S', '1', '\x7b', '\x7d', ',', '2', ' ', 'a', '\x7d'] =
      some [{ text := [' ', 'a'], font := 0, align := Align.LEFT,
              foreground := none, background := none, screens := [1, 2], notScreens := [] }] ∧
    Scan ['\x7b', 'S', '1', '\x7b', '\x7d', ',', '2', ' ', 'a', '\x7d'] ≠
      some [{ text := [',', '2', ' ', 'a'], font := 0, align := Align.LEFT,
              foreground := none, background := none, screens := [1], notScreens := [] }] := by
  exact ⟨by decide, by decide⟩

/-- Claim C2 as amended: when a directive argument fails to parse, the
directive prefix plus the offending argument text is appended literally
to the piece that was current and scanning continues from the next
token, but a new scope is still opened exactly as in the well-formed
case, carrying the directive's effect computed from the fallback value
the failed parse returned (0 on a syntax error). -/
theorem malformed_arg_literal_then_scope :
    ∀ (s : ScanState) (rem : List Char), s.escaping = false → s.curIdx < s.pieces.length →
      ((atoi (scanArg ['\x7b', 'F'] rem).1).2 = false →
        ∃ s', processToken s ['\x7b', 'F'] rem = some (s', (scanArg ['\x7b', 'F'] rem).2) ∧
          s'.chain = { curPiece s with
              text := (curPiece s).text ++ (['\x7b', 'F'] ++ (scanArg ['\x7b', 'F'] rem).1) } :: s.chain ∧
          (curPiece s').text = [] ∧
          (curPiece s').font = intToUint (atoi (scanArg ['\x7b', 'F'] rem).1).1) ∧
      (∀ a as, (scanArg ['\x7b', 'S'] rem).1 = a :: as → (atoi (a :: as)).2 = false →
        ∃ s', processToken s ['\x7b', 'S'] rem = some (s', (scanArg ['\x7b', 'S'] rem).2) ∧
          s'.chain = { curPiece s with
              text := (curPiece s).text ++ (['\x7b', 'S'] ++ (a :: as)) } :: s.chain ∧
          (curPiece s').text = [] ∧ s'.screening = true) ∧
      ((parseUint032 (scanArg ['\x7b', 'C', 'F'] rem).1).2 = false →
        ∃ s', processToken s ['\x7b', 'C', 'F'] rem = some (s', (scanArg ['\x7b', 'C', 'F'] rem).2) ∧
          s'.chain = { curPiece s with
              text := (curPiece s).text ++ (['\x7b', 'C', 'F'] ++ (scanArg ['\x7b', 'C', 'F'] rem).1) } :: s.chain ∧
          (curPiece s').text = [] ∧
          (curPiece s').foreground = some (NewBGRA (parseUint032 (scanArg ['\x7b', 'C', 'F'] rem).1).1)) ∧
      ((parseUint032 (scanArg ['\x7b', 'C', 'B'] rem).1).2 = false →
        ∃ s', processToken s ['\x7b', 'C', 'B'] rem = some (s', (scanArg ['\x7b', 'C', 'B'] rem).2) ∧
          s'.chain = { curPiece s with
              text := (curPiece s).text ++ (['\x7b', 'C', 'B'] ++ (scanArg ['\x7b', 'C', 'B'] rem).1) } :: s.chain ∧
          (curPiece s').text = [] ∧
          (curPiece s').background = some (NewBGRA (parseUint032 (scanArg ['\x7b', 'C', 'B'] rem).1).1)) := by
  intro s rem hesc hidx
  have hidxA : ∀ t : List Char, (appendCurText s t).curIdx < (appendCurText s t).pieces.length := by
    intro t
    rw [appendCurText_curIdx, appendCurText_length]
    exact hidx
  have hcpA : ∀ t : List Char,
      curPiece (appendCurText s t) = { curPiece s with text := (curPiece s).text ++ t } :=
    fun t => appendCurText_curPiece s t hidx
  refine ⟨?_, ?_, ?_, ?_⟩
  · intro hbad
    have heq := processToken_bsF s rem hesc
    rw [if_neg (by simp [hbad])] at heq
    exact ⟨_, heq,
      by rw [(open_scope_facts (appendCurText s _) _ (hidxA _)).1, hcpA, appendCurText_chain],
      by rw [(open_scope_facts (appendCurText s _) _ (hidxA _)).2],
      by rw [(open_scope_facts (appendCurText s _) _ (hidxA _)).2]⟩
  · intro a as harg hbad
    have heq := processToken_bsS s rem a as hesc harg
    by_cases hneg : a = '-'
    · rw [if_pos hneg, if_neg (by simp [hbad])] at heq
      refine ⟨_, heq, ?_, ?_, rfl⟩
      · rw [setScreening_chain,
            (open_scope_facts (appendCurText s _) _ (hidxA _)).1, hcpA, appendCurText_chain]
      · rw [curPiece_setScreening,
            (open_scope_facts (appendCurText s _) _ (hidxA _)).2]
    · rw [if_neg hneg, if_neg (by simp [hbad])] at heq
      refine ⟨_, heq, ?_, ?_, rfl⟩
      · rw [setScreening_chain,
            (open_scope_facts (appendCurText s _) _ (hidxA _)).1, hcpA, appendCurText_chain]
      · rw [curPiece_setScreening,
            (open_scope_facts (appendCurText s _) _ (hidxA _)).2]
  · intro hbad
    have heq := processToken_bsCF s rem hesc
    rw [if_neg (by simp [hbad])] at heq
    exact ⟨_, heq,
      by rw [(open_scope_facts (appendCurText s _) _ (hidxA _)).1, hcpA, appendCurText_chain],
      by rw [(open_scope_facts (appendCurText s _) _ (hidxA _)).2],
      by rw [(open_scope_facts (appendCurText s _) _ (hidxA _)).2]⟩
  · intro hbad
    have heq := processToken_bsCB s rem hesc
    rw [if_neg (by simp [hbad])] at heq
    exact ⟨_, heq,
      by rw [(open_scope_facts (appendCurText s _) _ (hidxA _)).1, hcpA, appendCurText_chain],
      by rw [(open_scope_facts (appendCurText s _) _ (hidxA _)).2],
      by rw [(open_scope_facts (appendCurText s _) _ (hidxA _)).2]⟩

theorem defaultCase_not_comma (s : ScanState) (stext rem : List Char)
    (h : ¬(s.screening = true ∧ stext = [','])) :
    defaultCase s stext rem = (setEscaping (appendCurText s stext) false, rem) := by
  unfold defaultCase
  rw [if_neg h]
  rfl

/-- Claim C3 as amended: a backslash token always sets `escaping`
(so a second backslash re-arms escaping and is itself never appended);
with `escaping` set, the next token is appended verbatim to the current
piece's text and `escaping` is cleared, unless it is another backslash,
or it is a `,` while screening is active — the latter is still consumed
as a screen-list continuation, appending the next token's parsed value
to the current piece's screens. -/
theorem escape_next_token_behavior :
    ∀ (s : ScanState) (tok rem : List Char),
      (tok = ['\\'] → processToken s tok rem = some ({ s with escaping := true }, rem)) ∧
      (s.escaping = true → tok ≠ ['\\'] → ¬(s.screening = true ∧ tok = [',']) →
        processToken s tok rem = some (setEscaping (appendCurText s tok) false, rem)) ∧
      (s.screening = true → s.curIdx < s.pieces.length →
        ∃ s', processToken s [','] rem = some (s', (scanArg [','] rem).2) ∧
          (curPiece s').screens =
            (curPiece s).screens ++ [intToUint (atoi (scanArg [','] rem).1).1] ∧
          s'.escaping = false) := by
  intro s tok rem
  refine ⟨?_, ?_, ?_⟩
  · intro hbs
    rw [hbs]
    exact processToken_backslash s rem
  · intro hesc hbs hcm
    exact processToken_escaped s tok rem hesc hbs hcm
  · intro hscr hidx
    have heq := processToken_comma_screening s rem hscr
    by_cases hok : (atoi (scanArg [','] rem).1).2
    · rw [if_pos hok] at heq
      refine ⟨_, heq, ?_, rfl⟩
      rw [curPiece_setEscaping, curPiece_setCur _ _ hidx]
    · rw [if_neg hok] at heq
      refine ⟨_, heq, ?_, rfl⟩
      have hidxA : (appendCurText s ([','] ++ (scanArg [','] rem).1)).curIdx <
          (appendCurText s ([','] ++ (scanArg [','] rem).1)).pieces.length := by
        rw [appendCurText_curIdx, appendCurText_length]; exact hidx
      rw [curPiece_setEscaping, curPiece_setCur _ _ hidxA,
          appendCurText_curPiece _ _ hidx]

/-- Claim C4 as amended: an unescaped `\x7d` processed with
`bracketDepth = 0` resets screening to false (whether or not it closes
a directive scope); a `\x7d` that decrements a positive `bracketDepth`
is consumed with no other effect, so screening (and everything else)
is left unchanged. -/
theorem closing_brace_screening_reset :
    ∀ (s : ScanState) (rem : List Char), s.escaping = false →
      (s.bracketing = 0 →
        ∃ s', processToken s ['\x7d'] rem = some (s', rem) ∧ s'.screening = false) ∧
      (0 < s.bracketing →
        processToken s ['\x7d'] rem = some ({ s with bracketing := s.bracketing - 1 }, rem) ∧
        ({ s with bracketing := s.bracketing - 1 } : ScanState).screening = s.screening) := by
  intro s rem hesc
  constructor
  · intro hbr
    have heq := processToken_close s rem hesc hbr
    cases hc : s.chain with
    | cons o os =>
      rw [hc] at heq
      exact ⟨_, heq, by rw [moveCurrent_screening]⟩
    | nil =>
      rw [hc] at heq
      rw [defaultCase_not_comma _ _ _ (by rintro ⟨hh, -⟩; cases hh)] at heq
      exact ⟨_, heq, rfl⟩
  · intro hbr
    exact ⟨processToken_close_bracketing s rem hesc hbr, rfl⟩

/-- Claim C5: closing a scope restores exactly the attribute set that
was active immediately before the scope was opened, at any nesting
depth.  First conjunct: every directive opener pushes onto the origin
chain a snapshot whose attributes are exactly those of the piece that
was current before the opener (for `\x7bS` the input must not end
right at the directive prefix, since there the code aborts before any
scope exists — the separately reported `text[0]` panic, out of scope
for a round-trip claim about scopes that do open).  Second conjunct:
an unescaped `\x7d`
with no literal brackets pending pops that snapshot, and the new
current piece carries exactly the popped snapshot's attributes.
Since the chain is used as a stack, the attributes after the matching
close equal those before the open, at any depth.  Third conjunct: a
concrete nested run showing the restoration (`test3` gets font 1 back
after the inner font-2 scope closes). -/
theorem scope_close_restores_attributes :
    (∀ (s : ScanState) (rem : List Char), s.escaping = false → s.curIdx < s.pieces.length →
      ∀ tok, tok = ['\x7b', 'F'] ∨ tok = ['\x7b', 'S'] ∨ tok = ['\x7b', 'C', 'F'] ∨
             tok = ['\x7b', 'C', 'B'] ∨ tok = ['\x7b', 'A', 'R'] →
      (tok = ['\x7b', 'S'] → rem ≠ []) →
      ∃ s' rem' h, processToken s tok rem = some (s', rem') ∧
        s'.chain = h :: s.chain ∧ attrsOf h = attrsOf (curPiece s)) ∧
    (∀ (s : ScanState) (rem : List Char) (c : PieceCore) (cr : List PieceCore),
      s.escaping = false → s.bracketing = 0 → s.chain = c :: cr →
      s.curIdx < s.pieces.length →
      ∃ s', processToken s ['\x7d'] rem = some (s', rem) ∧
        attrsOf (curPiece s') = attrsOf c ∧ s'.chain = cr) ∧
    Scan ['\x7b', 'F', '1', 't', '1', '\x7b', 'F', '2', 't', '2', '\x7d', 't', '3', '\x7d'] =
      some [{ text := ['t', '1'], font := 1, align := Align.LEFT,
              foreground := none, background := none, screens := [], notScreens := [] },
            { text := ['t', '2'], font := 2, align := Align.LEFT,
              foreground := none, background := none, screens := [], notScreens := [] },
            { text := ['t', '3'], font := 1, align := Align.LEFT,
              foreground := none, background := none, screens := [], notScreens := [] }] := by
  refine ⟨?_, ?_, by decide⟩
  · intro s rem hesc hidx tok htok hrem
    have hidxA : ∀ t : List Char,
        (appendCurText s t).curIdx < (appendCurText s t).pieces.length := by
      intro t
      rw [appendCurText_curIdx, appendCurText_length]
      exact hidx
    have hattrA : ∀ t : List Char, attrsOf (curPiece (appendCurText s t)) = attrsOf (curPiece s) := by
      intro t
      rw [appendCurText_curPiece _ _ hidx]
      rfl
    rcases htok with rfl | rfl | rfl | rfl | rfl
    · by_cases hok : (atoi (scanArg ['\x7b', 'F'] rem).1).2
      · have heq := processToken_bsF s rem hesc
        rw [if_pos hok] at heq
        exact ⟨_, _, curPiece s, heq, (open_scope_facts s _ hidx).1, rfl⟩
      · have heq := processToken_bsF s rem hesc
        rw [if_neg hok] at heq
        refine ⟨_, _, curPiece (appendCurText s (['\x7b', 'F'] ++ (scanArg ['\x7b', 'F'] rem).1)), heq, ?_, hattrA _⟩
        rw [(open_scope_facts (appendCurText s (['\x7b', 'F'] ++ (scanArg ['\x7b', 'F'] rem).1)) _ (hidxA _)).1, appendCurText_chain]
    · cases ht : (scanArg ['\x7b', 'S'] rem).1 with
      | nil => exact absurd ht (scanArg_fst_ne_nil _ rem (hrem rfl) (by simp))
      | cons a as =>
        have heq := processToken_bsS s rem a as hesc ht
        by_cases hneg : a = '-' <;> by_cases hok : (atoi (a :: as)).2
        · rw [if_pos hneg, if_pos hok] at heq
          refine ⟨_, _, curPiece s, heq, ?_, rfl⟩
          rw [setScreening_chain]
          exact (open_scope_facts s _ hidx).1
        · rw [if_pos hneg, if_neg hok] at heq
          refine ⟨_, _, curPiece (appendCurText s (['\x7b', 'S'] ++ a :: as)), heq,
            ?_, hattrA _⟩
          rw [setScreening_chain,
              (open_scope_facts (appendCurText s (['\x7b', 'S'] ++ a :: as)) _ (hidxA _)).1,
              appendCurText_chain]
        · rw [if_neg hneg, if_pos hok] at heq
          refine ⟨_, _, curPiece s, heq, ?_, rfl⟩
          rw [setScreening_chain]
          exact (open_scope_facts s _ hidx).1
        · rw [if_neg hneg, if_neg hok] at heq
          refine ⟨_, _, curPiece (appendCurText s (['\x7b', 'S'] ++ a :: as)), heq,
            ?_, hattrA _⟩
          rw [setScreening_chain,
              (open_scope_facts (appendCurText s (['\x7b', 'S'] ++ a :: as)) _ (hidxA _)).1,
              appendCurText_chain]
    · by_cases hok : (parseUint032 (scanArg ['\x7b', 'C', 'F'] rem).1).2
      · have heq := processToken_bsCF s rem hesc
        rw [if_pos hok] at heq
        exact ⟨_, _, curPiece s, heq, (open_scope_facts s _ hidx).1, rfl⟩
      · have heq := processToken_bsCF s rem hesc
        rw [if_neg hok] at heq
        refine ⟨_, _, curPiece (appendCurText s (['\x7b', 'C', 'F'] ++ (scanArg ['\x7b', 'C', 'F'] rem).1)), heq, ?_, hattrA _⟩
        rw [(open_scope_facts (appendCurText s (['\x7b', 'C', 'F'] ++ (scanArg ['\x7b', 'C', 'F'] rem).1)) _ (hidxA _)).1, appendCurText_chain]
    · by_cases hok : (parseUint032 (scanArg ['\x7b', 'C', 'B'] rem).1).2
      · have heq := processToken_bsCB s rem hesc
        rw [if_pos hok] at heq
        exact ⟨_, _, curPiece s, heq, (open_scope_facts s _ hidx).1, rfl⟩
      · have heq := processToken_bsCB s rem hesc
        rw [if_neg hok] at heq
        refine ⟨_, _, curPiece (appendCurText s (['\x7b', 'C', 'B'] ++ (scanArg ['\x7b', 'C', 'B'] rem).1)), heq, ?_, hattrA _⟩
        rw [(open_scope_facts (appendCurText s (['\x7b', 'C', 'B'] ++ (scanArg ['\x7b', 'C', 'B'] rem).1)) _ (hidxA _)).1, appendCurText_chain]
    · exact ⟨_, _, curPiece s, processToken_bsAR s rem hesc,
        (open_scope_facts s _ hidx).1, rfl⟩
  · intro s rem c cr hesc hbr hchain hidx
    have heq := processToken_close s rem hesc hbr
    rw [hchain] at heq
    refine ⟨_, heq, ?_, ?_⟩
    · rw [(close_scope_facts
            { pieces := s.pieces, curIdx := s.curIdx, chain := c :: cr,
              screening := false, escaping := s.escaping, bracketing := s.bracketing }
            hidx).2]
      rfl
    · rw [(close_scope_facts
            { pieces := s.pieces, curIdx := s.curIdx, chain := c :: cr,
              screening := false, escaping := s.escaping, bracketing := s.bracketing }
            hidx).1]
      rfl

/-- Claim C7: when a new piece is created while the piece being left is
right-aligned, `moveCurrent` inserts it at the list position currently
occupied by the piece being left, shifting that piece and everything
after it one slot later; otherwise the new piece is appended at the
end.  Consequently `Scan("\x7bARtest1\x7bF1test2\x7d\x7d")` returns
exactly `[piece(test2, font 1, RIGHT), piece(test1, RIGHT)]`. -/
theorem right_align_insertion :
    (∀ (s : ScanState) (e : Bool), s.curIdx < s.pieces.length →
      ((curPiece s).align = Align.RIGHT →
        (moveCurrent s e).curIdx = s.curIdx ∧
        (moveCurrent s e).pieces.length = s.pieces.length + 1 ∧
        (∀ k, k < s.curIdx → (moveCurrent s e).pieces[k]? = s.pieces[k]?) ∧
        (∀ k, s.curIdx ≤ k → (moveCurrent s e).pieces[k + 1]? = s.pieces[k]?)) ∧
      ((curPiece s).align ≠ Align.RIGHT →
        ∃ np, (moveCurrent s e).pieces = s.pieces ++ [np] ∧
          (moveCurrent s e).curIdx = s.pieces.length)) ∧
    Scan ['\x7b', 'A', 'R', 't', 'e', 's', 't', '1',
          '\x7b', 'F', '1', 't', 'e', 's', 't', '2', '\x7d', '\x7d'] =
      some [{ text := ['t', 'e', 's', 't', '2'], font := 1, align := Align.RIGHT,
              foreground := none, background := none, screens := [], notScreens := [] },
            { text := ['t', 'e', 's', 't', '1'], font := 0, align := Align.RIGHT,
              foreground := none, background := none, screens := [], notScreens := [] }] := by
  refine ⟨?_, by decide⟩
  intro s e hidx
  constructor
  · intro ha
    unfold moveCurrent
    rw [if_pos ha]
    have htl : (s.pieces.take s.curIdx).length = s.curIdx := by
      simp [Nat.min_eq_left (Nat.le_of_lt hidx)]
    refine ⟨rfl, ?_, ?_, ?_⟩
    · simp
      omega
    · intro k hk
      show (s.pieces.take s.curIdx ++ _ :: s.pieces.drop s.curIdx)[k]? = s.pieces[k]?
      rw [List.getElem?_append_left (by rw [htl]; exact hk)]
      exact List.getElem?_take_of_lt hk
    · intro k hk
      show (s.pieces.take s.curIdx ++ _ :: s.pieces.drop s.curIdx)[k + 1]? = s.pieces[k]?
      rw [List.getElem?_append_right (by rw [htl]; omega), htl]
      have hsub : k + 1 - s.curIdx = (k - s.curIdx) + 1 := by omega
      rw [hsub]
      rw [List.getElem?_cons_succ, List.getElem?_drop]
      congr 1
      omega
  · intro ha
    unfold moveCurrent
    rw [if_neg ha]
    exact ⟨_, rfl, rfl⟩

/-! ### Sign and range facts about `atoi` -/

theorem atoi_neg_head_bounds (ds : List Char) :
    -(9223372036854775808 : Int) ≤ (atoi ('-' :: ds)).1 ∧ (atoi ('-' :: ds)).1 ≤ 0 := by
  constructor <;>
  · simp only [atoi, decide_True, true_or, if_true, true_and, Bool.true_eq_false, false_and,
               if_false]
    split
    · norm_num
    · next n heq =>
      split_ifs with hds h2
      · norm_num
      · norm_num
      · have h3 := Nat.min_le_right n 18446744073709551615
        have h4 := Nat.not_lt.mp h2
        simp only [Prod.fst]
        omega

theorem atoi_nonneg_head_bounds (a : Char) (ds : List Char) (ha : a ≠ '-') :
    0 ≤ (atoi (a :: ds)).1 ∧ (atoi (a :: ds)).1 < 9223372036854775808 := by
  have hneg : (decide (a = '-')) = false := decide_eq_false ha
  constructor <;>
  · simp only [atoi, hneg, Bool.false_eq_true, false_and, if_false, eq_self_iff_true, true_and]
    by_cases hp : a = '-' ∨ a = '+'
    · rw [if_pos hp]
      split
      · norm_num
      · next n heq =>
        split_ifs <;>
          first
          | exact (by assumption : False).elim
          | (simp only [Prod.fst]; omega)
    · rw [if_neg hp]
      split
      · norm_num
      · next n heq =>
        split_ifs <;>
          first
          | exact (by assumption : False).elim
          | (simp only [Prod.fst]; omega)

theorem intToUint_neg_eq_natAbs (v : Int)
    (h1 : -(9223372036854775808 : Int) ≤ v) (h2 : v ≤ 0) :
    intToUint (-v) = v.natAbs := by
  unfold intToUint UINT_MOD
  rw [Int.emod_eq_of_lt (by omega) (by omega)]
  omega

theorem intToUint_eq_toNat (v : Int)
    (h1 : 0 ≤ v) (h2 : v < 18446744073709551616) :
    intToUint v = v.toNat := by
  unfold intToUint UINT_MOD
  rw [Int.emod_eq_of_lt h1 h2]

/-- Claim C8: for a `\x7bS` directive with a numeric argument, a
negative-signed first argument adds the absolute value to the new
piece's `notScreens` and leaves `screens` untouched (so it stays empty
in the default context); a non-negative first argument adds the value
to `screens`; and every comma-chained value while screening is active
is appended to `screens` by the plain `uint` conversion with no sign
check (even when its text begins with `-`). -/
theorem screen_directive_sign_handling :
    ∀ (s : ScanState) (rem : List Char), s.escaping = false → s.curIdx < s.pieces.length →
      (∀ ds, (scanArg ['\x7b', 'S'] rem).1 = '-' :: ds → (atoi ('-' :: ds)).2 = true →
        ∃ s', processToken s ['\x7b', 'S'] rem = some (s', (scanArg ['\x7b', 'S'] rem).2) ∧
          (curPiece s').notScreens =
            (curPiece s).notScreens ++ [((atoi ('-' :: ds)).1).natAbs] ∧
          (curPiece s').screens = (curPiece s).screens ∧
          s'.screening = true) ∧
      (∀ a ds, (scanArg ['\x7b', 'S'] rem).1 = a :: ds → a ≠ '-' → (atoi (a :: ds)).2 = true →
        ∃ s', processToken s ['\x7b', 'S'] rem = some (s', (scanArg ['\x7b', 'S'] rem).2) ∧
          (curPiece s').screens =
            (curPiece s).screens ++ [((atoi (a :: ds)).1).toNat] ∧
          (curPiece s').notScreens = (curPiece s).notScreens ∧
          s'.screening = true) ∧
      (∀ s2 : ScanState, s2.screening = true → s2.curIdx < s2.pieces.length →
        ∃ s', processToken s2 [','] rem = some (s', (scanArg [','] rem).2) ∧
          (curPiece s').screens =
            (curPiece s2).screens ++ [intToUint (atoi (scanArg [','] rem).1).1] ∧
          (curPiece s').notScreens = (curPiece s2).notScreens) := by
  intro s rem hesc hidx
  refine ⟨?_, ?_, ?_⟩
  · intro ds harg hok
    have heq := processToken_bsS s rem '-' ds hesc harg
    rw [if_pos rfl, if_pos hok] at heq
    refine ⟨_, heq, ?_, ?_, rfl⟩
    · rw [curPiece_setScreening, (open_scope_facts s _ hidx).2]
      obtain ⟨hb1, hb2⟩ := atoi_neg_head_bounds ds
      rw [intToUint_neg_eq_natAbs _ hb1 hb2]
    · rw [curPiece_setScreening, (open_scope_facts s _ hidx).2]
  · intro a ds harg ha hok
    have heq := processToken_bsS s rem a ds hesc harg
    rw [if_neg ha, if_pos hok] at heq
    refine ⟨_, heq, ?_, ?_, rfl⟩
    · rw [curPiece_setScreening, (open_scope_facts s _ hidx).2]
      obtain ⟨hb1, hb2⟩ := atoi_nonneg_head_bounds a ds ha
      rw [intToUint_eq_toNat _ hb1 (by omega)]
    · rw [curPiece_setScreening, (open_scope_facts s _ hidx).2]
  · intro s2 hscr hidx2
    have heq := processToken_comma_screening s2 rem hscr
    by_cases hok : (atoi (scanArg [','] rem).1).2
    · rw [if_pos hok] at heq
      refine ⟨_, heq, ?_, ?_⟩
      · rw [curPiece_setEscaping, curPiece_setCur _ _ hidx2]
      · rw [curPiece_setEscaping, curPiece_setCur _ _ hidx2]
    · rw [if_neg hok] at heq
      have hidxA : (appendCurText s2 ([','] ++ (scanArg [','] rem).1)).curIdx <
          (appendCurText s2 ([','] ++ (scanArg [','] rem).1)).pieces.length := by
        rw [appendCurText_curIdx, appendCurText_length]
        exact hidx2
      refine ⟨_, heq, ?_, ?_⟩
      · rw [curPiece_setEscaping, curPiece_setCur _ _ hidxA,
            appendCurText_curPiece _ _ hidx2]
      · rw [curPiece_setEscaping, curPiece_setCur _ _ hidxA,
            appendCurText_curPiece _ _ hidx2]

/-! ### Directive-free input -/

theorem scanLoopF_no_tok (n : Nat) (s : ScanState) (rem : List Char)
    (h : nextTok rem = none) : scanLoopF (n + 1) s rem = some s := by
  rw [scanLoopF_succ, h]

theorem scanLoopF_cons_tok (n : Nat) (s : ScanState) (rem t rem' : List Char)
    (h : nextTok rem = some (t, rem')) :
    scanLoopF (n + 1) s rem =
      match processToken s t rem' with
      | none => none
      | some (s2, rem2) => scanLoopF n s2 rem2 := by
  rw [scanLoopF_succ, h]

theorem scanLoopF_step (n : Nat) (s : ScanState) (rem t rem' : List Char)
    (s2 : ScanState) (rem2 : List Char)
    (h1 : nextTok rem = some (t, rem')) (h2 : processToken s t rem' = some (s2, rem2)) :
    scanLoopF (n + 1) s rem = scanLoopF n s2 rem2 := by
  rw [scanLoopF_cons_tok n s rem t rem' h1, h2]

theorem scanLoopF_plain : ∀ (fuel : Nat) (acc rem : List Char), rem.length < fuel →
    (∀ c ∈ rem, c ≠ '\x7b' ∧ c ≠ '\x7d' ∧ c ≠ '\\' ∧ c ≠ '\n') →
    scanLoopF fuel
      { pieces := [{ defaultPiece with text := acc }], curIdx := 0, chain := [],
        screening := false, escaping := false, bracketing := 0 } rem =
    some { pieces := [{ defaultPiece with text := acc ++ rem }], curIdx := 0, chain := [],
           screening := false, escaping := false, bracketing := 0 } := by
  intro fuel
  induction fuel with
  | zero => intro acc rem h _; exact absurd h (Nat.not_lt_zero _)
  | succ n ih =>
    intro acc rem hlen hclean
    cases rem with
    | nil =>
      rw [scanLoopF_no_tok n _ [] rfl]
      simp
    | cons c cr =>
      have hc := hclean c (by simp)
      rcases tokenize_shape c cr with ⟨hnl, -⟩ | ⟨k, hk, htok⟩
      · exact absurd hnl hc.2.2.2
      · have hnext : nextTok (c :: cr) = some ((c :: cr).take k, (c :: cr).drop k) := by
          unfold nextTok
          rw [htok]
        have htcl : ∀ x ∈ (c :: cr).take k, x ≠ '\x7b' ∧ x ≠ '\x7d' ∧ x ≠ '\\' ∧ x ≠ '\n' :=
          fun x hx => hclean x (List.take_subset _ _ hx)
        have hmem : ∀ (l : List Char) (x : Char), (c :: cr).take k = l → x ∈ l →
            (c :: cr).take k ≠ l → False := by
          intro l x hcontra _ hne
          exact hne hcontra
        have hstep := processToken_plainTok
          { pieces := [{ defaultPiece with text := acc }], curIdx := 0, chain := [],
            screening := false, escaping := false, bracketing := 0 }
          ((c :: cr).take k) ((c :: cr).drop k)
          (by intro hcontra
              exact (htcl '\\' (by rw [hcontra]; simp)).2.2.1 rfl)
          (by intro hcontra
              exact (htcl '\x7b' (by rw [hcontra]; simp)).1 rfl)
          (by intro hcontra
              exact (htcl '\x7b' (by rw [hcontra]; simp)).1 rfl)
          (by intro hcontra
              exact (htcl '\x7b' (by rw [hcontra]; simp)).1 rfl)
          (by intro hcontra
              exact (htcl '\x7b' (by rw [hcontra]; simp)).1 rfl)
          (by intro hcontra
              exact (htcl '\x7b' (by rw [hcontra]; simp)).1 rfl)
          (by intro hcontra
              exact (htcl '\x7b' (by rw [hcontra]; simp)).1 rfl)
          (by intro hcontra
              exact (htcl '\x7d' (by rw [hcontra]; simp)).2.1 rfl)
          rfl
        rw [scanLoopF_step n _ _ _ _ _ _ hnext hstep]
        have hstate :
            setEscaping (appendCurText
              { pieces := [{ defaultPiece with text := acc }], curIdx := 0, chain := [],
                screening := false, escaping := false, bracketing := 0 }
              ((c :: cr).take k)) false =
            { pieces := [{ defaultPiece with text := acc ++ (c :: cr).take k }], curIdx := 0,
              chain := [], screening := false, escaping := false, bracketing := 0 } := rfl
        rw [hstate]
        have hlen2 : ((c :: cr).drop k).length < n := by
          have h1 : (c :: cr).length < n + 1 := hlen
          simp only [List.length_drop]
          simp at h1 ⊢
          omega
        rw [ih (acc ++ (c :: cr).take k) ((c :: cr).drop k) hlen2
              (fun x hx => hclean x (List.drop_subset _ _ hx))]
        rw [List.append_assoc, List.take_append_drop]

/-- Claim C9: a nonempty line containing no braces, no backslash and no
newline (hence no directive prefixes and no unescaped braces) scans to
exactly one piece whose text is the whole input, all other fields at
their defaults. -/
theorem no_directive_single_piece :
    ∀ cs : List Char, cs ≠ [] →
      (∀ c ∈ cs, c ≠ '\x7b' ∧ c ≠ '\x7d' ∧ c ≠ '\\' ∧ c ≠ '\n') →
      Scan cs = some [{ defaultPiece with text := cs }] := by
  intro cs hne hclean
  unfold Scan
  rw [show (initState : ScanState) =
        { pieces := [{ defaultPiece with text := ([] : List Char) }], curIdx := 0,
          chain := [], screening := false, escaping := false, bracketing := 0 } from rfl,
      scanLoopF_plain (cs.length + 1) [] cs (by omega) hclean]
  simp [hne]

/-! ### Witnesses: the hypothesis-bearing claim theorems instantiated at
concrete inputs -/

theorem malformed_arg_witness :
    ∃ s', processToken initState ['\x7b', 'F'] ['x', '\x7d'] =
        some (s', (scanArg ['\x7b', 'F'] ['x', '\x7d']).2) ∧
      s'.chain = { curPiece initState with
          text := (curPiece initState).text ++
            (['\x7b', 'F'] ++ (scanArg ['\x7b', 'F'] ['x', '\x7d']).1) } :: initState.chain ∧
      (curPiece s').text = [] ∧
      (curPiece s').font = intToUint (atoi (scanArg ['\x7b', 'F'] ['x', '\x7d']).1).1 :=
  (malformed_arg_literal_then_scope initState ['x', '\x7d'] rfl (by decide)).1 (by decide)

theorem escape_next_token_witness :
    processToken (setEscaping initState true) ['\x7b', 'F'] [] =
      some (setEscaping (appendCurText (setEscaping initState true) ['\x7b', 'F']) false, []) :=
  (escape_next_token_behavior (setEscaping initState true) ['\x7b', 'F'] []).2.1
    rfl (by decide) (by decide)

theorem closing_brace_screening_witness :
    ∃ s', processToken (setScreening initState true) ['\x7d'] [] = some (s', []) ∧
      s'.screening = false :=
  (closing_brace_screening_reset (setScreening initState true) [] rfl).1 rfl

theorem scope_close_restores_witness :
    ∃ s', processToken
        { pieces := [defaultPiece, { defaultPiece with font := 2, text := ['x'] }],
          curIdx := 1, chain := [{ defaultPiece with font := 1 }],
          screening := false, escaping := false, bracketing := 0 }
        ['\x7d'] [] =
        some (s', []) ∧
      attrsOf (curPiece s') = attrsOf { defaultPiece with font := 1 } ∧
      s'.chain = [] :=
  scope_close_restores_attributes.2.1
    { pieces := [defaultPiece, { defaultPiece with font := 2, text := ['x'] }],
      curIdx := 1, chain := [{ defaultPiece with font := 1 }],
      screening := false, escaping := false, bracketing := 0 }
    [] { defaultPiece with font := 1 } [] rfl rfl rfl (by decide)

theorem right_align_insertion_witness :
    (moveCurrent
      { pieces := [{ defaultPiece with align := Align.RIGHT }], curIdx := 0,
        chain := [], screening := false, escaping := false, bracketing := 0 }
      false).curIdx = 0 ∧
    (moveCurrent
      { pieces := [{ defaultPiece with align := Align.RIGHT }], curIdx := 0,
        chain := [], screening := false, escaping := false, bracketing := 0 }
      false).pieces.length = 2 ∧
    (∀ k, k < 0 →
      (moveCurrent
        { pieces := [{ defaultPiece with align := Align.RIGHT }], curIdx := 0,
          chain := [], screening := false, escaping := false, bracketing := 0 }
        false).pieces[k]? =
      ([{ defaultPiece with align := Align.RIGHT }] : List PieceCore)[k]?) ∧
    (∀ k, 0 ≤ k →
      (moveCurrent
        { pieces := [{ defaultPiece with align := Align.RIGHT }], curIdx := 0,
          chain := [], screening := false, escaping := false, bracketing := 0 }
        false).pieces[k + 1]? =
      ([{ defaultPiece with align := Align.RIGHT }] : List PieceCore)[k]?) :=
  (right_align_insertion.1
    { pieces := [{ defaultPiece with align := Align.RIGHT }], curIdx := 0,
      chain := [], screening := false, escaping := false, bracketing := 0 }
    false (by decide)).1 (by decide)

theorem screen_directive_sign_witness :
    ∃ s', processToken initState ['\x7b', 'S'] ['-', '2', 'x'] =
        some (s', (scanArg ['\x7b', 'S'] ['-', '2', 'x']).2) ∧
      (curPiece s').notScreens =
        (curPiece initState).notScreens ++ [((atoi ('-' :: ['2'])).1).natAbs] ∧
      (curPiece s').screens = (curPiece initState).screens ∧
      s'.screening = true :=
  (screen_directive_sign_handling initState ['-', '2', 'x'] rfl (by decide)).1
    ['2'] (by decide) (by decide)

theorem no_directive_single_piece_witness :
    Scan ['a', 'b'] = some [{ defaultPiece with text := ['a', 'b'] }] :=
  no_directive_single_piece ['a', 'b'] (by decide) (by decide)

end Gobar
